import Mathlib

/-!
Verification of the `movabletype` package (file `parse.go`): a single-pass
line-oriented parser for the Movable Type import/export text format.

The embedding works on the sequence of lines delivered by the scanner
(`List String`).  Pure string helpers from the Go standard library that
`Parse` uses (`strings.Split` with separator `": "`, `strings.HasSuffix`,
`strconv.Atoi`, `time.Parse` with the two fixed layouts) are embedded as
executable functions on character lists.  The scanner loop of `Parse`,
which contains five structurally identical nested capture loops, is
rendered as a single structurally recursive function `parseStep` whose
`Mode` argument records whether control is in the outer loop (`.normal`)
or inside the capture loop of one multi-line field (`.capture f`).
-/

set_option maxRecDepth 4000

namespace Movabletype

/-! ## Character-list string helpers -/

/-- `isPreL p l` : `p` is a prefix of `l` (character lists, executable). -/
def isPreL : List Char → List Char → Bool
  | [], _ => true
  | _ :: _, [] => false
  | a :: as, b :: bs => a == b && isPreL as bs

/-- `isSufL s l` : `s` is a suffix of `l`. -/
def isSufL (s l : List Char) : Bool := isPreL s.reverse l.reverse

/-- `isInfL s l` : `s` occurs as a contiguous segment of `l`. -/
def isInfL : List Char → List Char → Bool
  | s, [] => isPreL s []
  | s, c :: cs => isPreL s (c :: cs) || isInfL s cs

/-- Embedding of Go `strings.HasSuffix`. -/
def hasSuffix (s suf : String) : Bool := isSufL suf.data s.data

/-- Embedding of Go `strings.Contains`. -/
def strContains (s sub : String) : Bool := isInfL sub.data s.data

/-- `hasCS cs` : the character list contains the two-character separator
`": "` (colon then space); the substring occurrence test underlying Go's
`strings.Split(s, ": ")`. -/
def hasCS : List Char → Bool
  | [] => false
  | [_] => false
  | c :: c2 :: cs => (c == ':' && c2 == ' ') || hasCS (c2 :: cs)

/-- Embedding of Go `strings.Split(s, ": ")` on character lists: the
input is cut around each non-overlapping occurrence of `": "`, scanning
left to right. -/
def splitCSL : List Char → List (List Char)
  | [] => [[]]
  | [c] => [[c]]
  | c :: c2 :: cs =>
    if c == ':' && c2 == ' ' then
      [] :: splitCSL cs
    else
      match splitCSL (c2 :: cs) with
      | [] => [[c]]
      | s :: ss => (c :: s) :: ss

/-- Embedding of Go `strings.Split(line, ": ")` (src/parse.go line 81). -/
def splitCS (s : String) : List String := (splitCSL s.data).map String.mk

/-- All characters are ASCII decimal digits and the list is nonempty:
the shape accepted by `strconv.Atoi` after the optional sign. -/
def parseDigits (cs : List Char) : Option Nat :=
  if cs = [] then none
  else if cs.all (fun c => c.isDigit) then
    some (cs.foldl (fun n c => n * 10 + (c.toNat - 48)) 0)
  else none

/-- Embedding of Go `strconv.Atoi`: optional single `+`/`-` sign followed
by base-10 digits only; the empty string, any other character, and any
value outside the signed 64-bit range are errors (`none`). -/
def atoi (s : String) : Option Int :=
  match s.data with
  | [] => none
  | '+' :: cs =>
    (parseDigits cs).bind fun n =>
      if n ≤ 9223372036854775807 then some (Int.ofNat n) else none
  | '-' :: cs =>
    (parseDigits cs).bind fun n =>
      if n ≤ 9223372036854775808 then some (-(Int.ofNat n)) else none
  | cs =>
    (parseDigits cs).bind fun n =>
      if n ≤ 9223372036854775807 then some (Int.ofNat n) else none

/-! ## Dates: Go `time.Parse` with the two fixed layouts of `Parse` -/

/-- Calendar timestamp with seconds precision and no timezone: the part
of a Go `time.Time` observable through the two layouts used by `Parse`. -/
structure GoTime where
  year : Nat
  month : Nat
  day : Nat
  hour : Nat
  minute : Nat
  second : Nat
deriving Repr, DecidableEq

/-- The Go zero `time.Time`: January 1, year 1, 00:00:00. -/
def GoTime.zero : GoTime := ⟨1, 1, 1, 0, 0, 0⟩

/-- Go `time` package `getnum`: one or two base-10 digits; exactly two
when `fixed` is true (zero-padded layout elements). -/
def getnum2 (fixed : Bool) : List Char → Option (Nat × List Char)
  | [] => none
  | [c1] =>
    if c1.isDigit && !fixed then some (c1.toNat - 48, []) else none
  | c1 :: c2 :: cs =>
    if c1.isDigit then
      if c2.isDigit then some ((c1.toNat - 48) * 10 + (c2.toNat - 48), cs)
      else if fixed then none
      else some (c1.toNat - 48, c2 :: cs)
    else none

/-- Go `time` package long-year element `2006`: exactly four digits. -/
def getnum4 : List Char → Option (Nat × List Char)
  | c1 :: c2 :: c3 :: c4 :: cs =>
    if c1.isDigit && c2.isDigit && c3.isDigit && c4.isDigit then
      some ((((c1.toNat - 48) * 10 + (c2.toNat - 48)) * 10 + (c3.toNat - 48)) * 10
        + (c4.toNat - 48), cs)
    else none
  | _ => none

/-- Consume one expected literal layout character. -/
def expectChar (c : Char) : List Char → Option (List Char)
  | [] => none
  | x :: xs => if x == c then some xs else none

/-- Gregorian leap-year rule, as Go `time.isLeap`. -/
def isLeap (y : Nat) : Bool := y % 4 == 0 && (y % 100 != 0 || y % 400 == 0)

/-- Days in a month, as Go `time.daysIn`. -/
def daysIn (m y : Nat) : Nat :=
  if m = 2 then (if isLeap y then 29 else 28)
  else if m = 4 ∨ m = 6 ∨ m = 9 ∨ m = 11 then 30
  else 31

/-- Embedding of Go `time.Parse("01/02/2006 15:04:05", s)` (24-hour
layout): fixed two-digit month and day, four-digit year, one- or
two-digit hour (Go layout element `15` is not zero-padded), fixed
two-digit minute and second, with Go's range checks (month 1–12, hour
0–23, minute/second 0–59, day valid for the month) and no text allowed
after the layout.  Nanoseconds and timezones do not occur in these
layouts. -/
def parse24 (s : String) : Option GoTime := do
  let v := s.data
  let (mon, v) ← getnum2 true v
  let v ← expectChar '/' v
  let (d, v) ← getnum2 true v
  let v ← expectChar '/' v
  let (y, v) ← getnum4 v
  let v ← expectChar ' ' v
  let (h, v) ← getnum2 false v
  let v ← expectChar ':' v
  let (mi, v) ← getnum2 true v
  let v ← expectChar ':' v
  let (sec, v) ← getnum2 true v
  if v = [] ∧ 1 ≤ mon ∧ mon ≤ 12 ∧ h ≤ 23 ∧ mi ≤ 59 ∧ sec ≤ 59
      ∧ 1 ≤ d ∧ d ≤ daysIn mon y then
    some ⟨y, mon, d, h, mi, sec⟩
  else none

/-- Embedding of Go `time.Parse("01/02/2006 03:04:05 PM", s)` (12-hour
layout): as `parse24` but with a fixed two-digit hour in range 0–12
followed by a literal space and `PM` or `AM` (uppercase, as in the
layout); `PM` adds 12 to hours below 12 and `AM` maps hour 12 to 0. -/
def parse12 (s : String) : Option GoTime := do
  let v := s.data
  let (mon, v) ← getnum2 true v
  let v ← expectChar '/' v
  let (d, v) ← getnum2 true v
  let v ← expectChar '/' v
  let (y, v) ← getnum4 v
  let v ← expectChar ' ' v
  let (h, v) ← getnum2 true v
  let v ← expectChar ':' v
  let (mi, v) ← getnum2 true v
  let v ← expectChar ':' v
  let (sec, v) ← getnum2 true v
  let v ← expectChar ' ' v
  match v with
  | 'P' :: 'M' :: v =>
    if v = [] ∧ 1 ≤ mon ∧ mon ≤ 12 ∧ h ≤ 12 ∧ mi ≤ 59 ∧ sec ≤ 59
        ∧ 1 ≤ d ∧ d ≤ daysIn mon y then
      some ⟨y, mon, d, if h < 12 then h + 12 else h, mi, sec⟩
    else none
  | 'A' :: 'M' :: v =>
    if v = [] ∧ 1 ≤ mon ∧ mon ≤ 12 ∧ h ≤ 12 ∧ mi ≤ 59 ∧ sec ≤ 59
        ∧ 1 ≤ d ∧ d ≤ daysIn mon y then
      some ⟨y, mon, d, if h = 12 then 0 else h, mi, sec⟩
    else none
  | _ => none

/-- The `DATE` dispatch of `Parse` (src/parse.go lines 197–202): the
12-hour layout is used exactly when the value ends in the literal
suffix `AM` or `PM`, the 24-hour layout otherwise. -/
def dateParse (v : String) : Option GoTime :=
  if hasSuffix v "AM" || hasSuffix v "PM" then parse12 v else parse24 v

/-! ## The Entry record -/

/-- Embedding of the `Entry` struct (src/parse.go lines 25–49). -/
structure Entry where
  author : String
  title : String
  basename : String
  status : String
  allowComments : Int
  allowPings : Int
  convertBreaks : String
  date : GoTime
  primaryCategory : String
  category : List String
  image : String
  body : String
  extendedBody : String
  excerpt : String
  keywords : String
  comment : String
deriving Repr, DecidableEq

/-- Embedding of `NewEntry` (src/parse.go lines 52–57): Go zero values
for every field except the two `-1` sentinels. -/
def NewEntry : Entry :=
  { author := "", title := "", basename := "", status := ""
    allowComments := -1, allowPings := -1
    convertBreaks := "", date := GoTime.zero
    primaryCategory := "", category := [], image := ""
    body := "", extendedBody := "", excerpt := "", keywords := ""
    comment := "" }

/-- The five multi-line fields, i.e. which of the five structurally
identical inner capture loops of `Parse` (src/parse.go lines 96–152)
is running. -/
inductive MField
  | body
  | extendedBody
  | excerpt
  | keywords
  | comment
deriving Repr, DecidableEq

/-- The header line that starts the capture loop of each field. -/
def MField.header : MField → String
  | .body => "BODY:"
  | .extendedBody => "EXTENDED BODY:"
  | .excerpt => "EXCERPT:"
  | .keywords => "KEYWORDS:"
  | .comment => "COMMENT:"

/-- Read the multi-line field of an entry. -/
def MField.get : MField → Entry → String
  | .body, m => m.body
  | .extendedBody, m => m.extendedBody
  | .excerpt, m => m.excerpt
  | .keywords, m => m.keywords
  | .comment, m => m.comment

/-- Replace the multi-line field of an entry. -/
def MField.set : MField → Entry → String → Entry
  | .body, m, s => { m with body := s }
  | .extendedBody, m, s => { m with extendedBody := s }
  | .excerpt, m, s => { m with excerpt := s }
  | .keywords, m, s => { m with keywords := s }
  | .comment, m, s => { m with comment := s }

/-- One iteration of a capture loop: `m.Body += line + "\n"` and the
four analogous statements. -/
def MField.add (f : MField) (m : Entry) (line : String) : Entry :=
  f.set m (f.get m ++ line ++ "\n")

/-- The fatal errors `Parse` can return.  Each constructor carries the
dynamic value interpolated into the corresponding `fmt.Errorf` call. -/
inductive ParseError
  | statusInvalid (value : String)
  | allowCommentsSyntax (value : String)
  | allowCommentsRange (n : Int)
  | allowPingsSyntax (value : String)
  | allowPingsRange (n : Int)
  | dateInvalid (value : String)
deriving Repr, DecidableEq

/-- The text of each error.  The first component of each message is the
verbatim `fmt.Errorf` format text from src/parse.go; for the two `%w`
wrapped cases (`Atoi` failure, `time.Parse` failure) the wrapped
error's own text is abstracted to the offending value that it names. -/
def ParseError.message : ParseError → String
  | .statusInvalid v =>
    "STATUS column is allowed only Draft or Publish or Future. Got " ++ v
  | .allowCommentsSyntax v =>
    "ALLOW COMMENTS column is allowed only 0 or 1: " ++ v
  | .allowCommentsRange n =>
    "ALLOW COMMENTS column is allowed only 0 or 1. Got " ++ toString n
  | .allowPingsSyntax v =>
    "ALLOW PINGS column is allowed only 0 or 1: " ++ v
  | .allowPingsRange n =>
    "ALLOW PINGS column is allowed only 0 or 1. Got " ++ toString n
  | .dateInvalid v =>
    "Parsing error on DATE column: " ++ v

/-- Scanner position: the outer loop, or inside the capture loop of one
multi-line field. -/
inductive Mode
  | normal
  | capture (f : MField)
deriving Repr, DecidableEq

/-! ## The scanner loop of `Parse` -/

/-- Embedding of the scanner loop of `Parse` (src/parse.go lines
80–218).  `m` is the entry under construction, `acc` the already sealed
entries in order.  In `.capture f` mode the function plays the inner
loop of the corresponding `case` (append each line plus a newline until
a line equal to `-----`, or end of input); in `.normal` mode it plays
the outer loop body: split the line on every `": "`, treat one-segment
lines as separators/capture headers, and two-or-more-segment lines as
`KEY: value` assignments — except that a line whose value segment is
exactly `"COMMENT:"` is skipped by the `value != "COMMENT:"` guard
(src/parse.go line 158).  The `ALLOW PINGS` branch reproduces
src/parse.go line 190 faithfully: after assigning the parsed value to
`allowPings`, the range check inspects `allowComments` while the error
reports the `allowPings` value. -/
def parseStep : List String → Mode → Entry → List Entry →
    Except ParseError (List Entry)
  | [], _, _, acc => .ok acc
  | line :: rest, .capture f, m, acc =>
    if line = "-----" then parseStep rest .normal m acc
    else parseStep rest (.capture f) (f.add m line) acc
  | line :: rest, .normal, m, acc =>
    let ss := splitCS line
    if ss.length ≤ 1 then
      let value := ss.getD 0 ""
      if value = "--------" then parseStep rest .normal NewEntry (acc ++ [m])
      else if value = "-----" then parseStep rest .normal m acc
      else if value = "BODY:" then parseStep rest (.capture .body) m acc
      else if value = "EXTENDED BODY:" then
        parseStep rest (.capture .extendedBody) m acc
      else if value = "EXCERPT:" then parseStep rest (.capture .excerpt) m acc
      else if value = "KEYWORDS:" then parseStep rest (.capture .keywords) m acc
      else if value = "COMMENT:" then parseStep rest (.capture .comment) m acc
      else parseStep rest .normal m acc
    else
      let key := ss.getD 0 ""
      let value := ss.getD 1 ""
      if value = "COMMENT:" then parseStep rest .normal m acc
      else if key = "AUTHOR" then
        parseStep rest .normal { m with author := value } acc
      else if key = "TITLE" then
        parseStep rest .normal { m with title := value } acc
      else if key = "BASENAME" then
        parseStep rest .normal { m with basename := value } acc
      else if key = "STATUS" then
        if value = "Draft" ∨ value = "Publish" ∨ value = "Future" then
          parseStep rest .normal { m with status := value } acc
        else .error (.statusInvalid value)
      else if key = "ALLOW COMMENTS" then
        match atoi value with
        | none => .error (.allowCommentsSyntax value)
        | some n =>
          if n ≠ 0 ∧ n ≠ 1 then .error (.allowCommentsRange n)
          else parseStep rest .normal { m with allowComments := n } acc
      else if key = "ALLOW PINGS" then
        match atoi value with
        | none => .error (.allowPingsSyntax value)
        | some n =>
          if m.allowComments ≠ 0 ∧ m.allowComments ≠ 1 then
            .error (.allowPingsRange n)
          else parseStep rest .normal { m with allowPings := n } acc
      else if key = "CONVERT BREAKS" then
        parseStep rest .normal { m with convertBreaks := value } acc
      else if key = "DATE" then
        match dateParse value with
        | none => .error (.dateInvalid value)
        | some t => parseStep rest .normal { m with date := t } acc
      else if key = "PRIMARY CATEGORY" then
        parseStep rest .normal { m with primaryCategory := value } acc
      else if key = "CATEGORY" then
        parseStep rest .normal { m with category := m.category ++ [value] } acc
      else if key = "IMAGE" then
        parseStep rest .normal { m with image := value } acc
      else parseStep rest .normal m acc

deriving instance DecidableEq for Except

/-- Embedding of `Parse` (src/parse.go lines 71–221) over the sequence
of lines the scanner delivers. -/
def Parse (lines : List String) : Except ParseError (List Entry) :=
  parseStep lines .normal NewEntry []

/-- `Parse` run against a possibly failing stream.  A `bufio.Scanner`
delivers the successfully read `lines`; when the underlying reader then
fails, `Scan` returns `false` with the non-nil error `streamErr`
pending in `scanner.Err()`.  `Parse` never calls `scanner.Err()` — its
only return of a non-nil error is for format violations, and its final
statement (src/parse.go line 220) is `return mts, nil` — so the
translation does not consume `streamErr` at all. -/
def ParseStream (lines : List String) (streamErr : Option String) :
    Except ParseError (List Entry) :=
  Parse lines

/-- The text one capture loop accumulates for the content lines `ls`:
each line followed by one newline character. -/
def joinNL (ls : List String) : String :=
  ls.foldr (fun l s => l ++ "\n" ++ s) ""

/-- Spec-side counting for claim C6, following the spec's words: the
number of record-terminator lines `--------` *encountered* during the
scan.  The Boolean argument tells whether the scan is inside a
multi-line capture block, whose content lines are never classified. -/
def countTerm : List String → Bool → Nat
  | [], _ => 0
  | l :: ls, true =>
    if l = "-----" then countTerm ls false else countTerm ls true
  | l :: ls, false =>
    let ss := splitCS l
    if ss.length ≤ 1 then
      let value := ss.getD 0 ""
      if value = "--------" then countTerm ls false + 1
      else if value = "-----" then countTerm ls false
      else if value = "BODY:" ∨ value = "EXTENDED BODY:" ∨ value = "EXCERPT:"
          ∨ value = "KEYWORDS:" ∨ value = "COMMENT:" then countTerm ls true
      else countTerm ls false
    else countTerm ls false

/-- Whether the scan is inside a capture block. -/
def Mode.isCap : Mode → Bool
  | .normal => false
  | .capture _ => true

/-! ## Helper lemmas about the string functions -/

theorem isPreL_refl : ∀ l : List Char, isPreL l l = true
  | [] => rfl
  | c :: cs => by simp [isPreL, isPreL_refl cs]

theorem isInfL_append_self : ∀ (p l : List Char), isInfL l (p ++ l) = true
  | [], l => by cases l <;> simp [isInfL, isPreL, isPreL_refl]
  | c :: p, l => by simp [isInfL, isInfL_append_self p l]

theorem hasSuffix_append_nl (s : String) : hasSuffix (s ++ "\n") "\n" = true := by
  simp [hasSuffix, isSufL, String.data_append,
    show ("\n").data = ['\n'] from rfl, List.reverse_append, isPreL]

theorem splitCSL_ne_nil : ∀ cs : List Char, splitCSL cs ≠ []
  | [] => by simp [splitCSL]
  | [c] => by simp [splitCSL]
  | c :: c2 :: cs => by
    simp only [splitCSL]
    split
    · simp
    · split <;> simp

theorem splitCSL_no_sep : ∀ cs : List Char, hasCS cs = false → splitCSL cs = [cs]
  | [], _ => rfl
  | [c], _ => rfl
  | c :: c2 :: cs, h => by
    have h0 : (c = ':' → ¬ c2 = ' ') ∧ hasCS (c2 :: cs) = false := by
      simpa [hasCS] using h
    have h1 : ¬((c == ':' && c2 == ' ') = true) := by
      intro hb
      rw [Bool.and_eq_true, beq_iff_eq, beq_iff_eq] at hb
      exact h0.1 hb.1 hb.2
    rw [show splitCSL (c :: c2 :: cs)
        = if (c == ':' && c2 == ' ') then [] :: splitCSL cs
          else match splitCSL (c2 :: cs) with
            | [] => [[c]]
            | s :: ss => (c :: s) :: ss from rfl]
    rw [if_neg h1, splitCSL_no_sep (c2 :: cs) h0.2]

theorem splitCSL_append : ∀ (a b : List Char), hasCS a = false →
    splitCSL (a ++ ':' :: ' ' :: b) = a :: splitCSL b
  | [], b, _ => by simp [splitCSL]
  | [c], b, _ => by simp [splitCSL]
  | c :: c2 :: a, b, h => by
    have h0 : (c = ':' → ¬ c2 = ' ') ∧ hasCS (c2 :: a) = false := by
      simpa [hasCS] using h
    have h1 : ¬((c == ':' && c2 == ' ') = true) := by
      intro hb
      rw [Bool.and_eq_true, beq_iff_eq, beq_iff_eq] at hb
      exact h0.1 hb.1 hb.2
    have ih := splitCSL_append (c2 :: a) b h0.2
    simp only [List.cons_append] at ih ⊢
    rw [show splitCSL (c :: c2 :: (a ++ ':' :: ' ' :: b))
        = if (c == ':' && c2 == ' ') then [] :: splitCSL (a ++ ':' :: ' ' :: b)
          else match splitCSL (c2 :: (a ++ ':' :: ' ' :: b)) with
            | [] => [[c]]
            | s :: ss => (c :: s) :: ss from rfl]
    rw [if_neg h1, ih]

/-- A `KEY: value` line whose two parts are free of the separator is
split into exactly its key and its value. -/
theorem splitCS_kv (k v : String) (hk : hasCS k.data = false)
    (hv : hasCS v.data = false) : splitCS (k ++ ": " ++ v) = [k, v] := by
  have hd : (k ++ ": " ++ v).data = k.data ++ ':' :: ' ' :: v.data := by
    simp [String.data_append, show (": ").data = [':', ' '] from rfl]
  rw [splitCS, hd, splitCSL_append _ _ hk, splitCSL_no_sep _ hv]
  rfl

/-! ## Helper lemmas about fields of the entry -/

theorem MField.get_set (f : MField) (m : Entry) (s : String) :
    f.get (f.set m s) = s := by
  cases f <;> rfl

theorem MField.set_set (f : MField) (m : Entry) (s t : String) :
    f.set (f.set m s) t = f.set m t := by
  cases f <;> rfl

theorem MField.set_get (f : MField) (m : Entry) : f.set m (f.get m) = m := by
  cases f <;> rfl

theorem MField.get_set_ne (f f' : MField) (m : Entry) (s : String)
    (h : f' ≠ f) : f'.get (f.set m s) = f'.get m := by
  cases f <;> cases f' <;> first | exact absurd rfl h | rfl

theorem MField.set_allowComments (f : MField) (m : Entry) (s : String) :
    (f.set m s).allowComments = m.allowComments := by
  cases f <;> rfl

theorem MField.set_allowPings (f : MField) (m : Entry) (s : String) :
    (f.set m s).allowPings = m.allowPings := by
  cases f <;> rfl

/-- A multi-line field of an entry is either empty or newline-terminated. -/
def MInv (m : Entry) : Prop :=
  ∀ f : MField, f.get m = "" ∨ hasSuffix (f.get m) "\n" = true

theorem MInv_new : MInv NewEntry := by
  intro f
  cases f <;> exact Or.inl rfl

theorem MInv_add (f : MField) (m : Entry) (l : String) (inv : MInv m) :
    MInv (f.add m l) := by
  intro f'
  by_cases hf : f' = f
  · subst hf
    rw [MField.add, MField.get_set]
    exact Or.inr (hasSuffix_append_nl (f'.get m ++ l))
  · rw [MField.add, MField.get_set_ne f f' _ _ hf]
    exact inv f'

theorem MInv_nonml (m m' : Entry) (hb : m'.body = m.body)
    (he : m'.extendedBody = m.extendedBody) (hx : m'.excerpt = m.excerpt)
    (hk : m'.keywords = m.keywords) (hc : m'.comment = m.comment)
    (inv : MInv m) : MInv m' := by
  intro f
  cases f
  · rw [show MField.get .body m' = m'.body from rfl, hb]; exact inv .body
  · rw [show MField.get .extendedBody m' = m'.extendedBody from rfl, he]
    exact inv .extendedBody
  · rw [show MField.get .excerpt m' = m'.excerpt from rfl, hx]; exact inv .excerpt
  · rw [show MField.get .keywords m' = m'.keywords from rfl, hk]
    exact inv .keywords
  · rw [show MField.get .comment m' = m'.comment from rfl, hc]; exact inv .comment

/-! ## Behaviour of the capture loops -/

/-- A capture loop that reaches its `-----` terminator appends every
content line plus a newline to the field and hands the remaining lines
back to the outer loop. -/
theorem capture_content : ∀ (ls : List String) (f : MField) (rest : List String)
    (m : Entry) (acc : List Entry), "-----" ∉ ls →
    parseStep (ls ++ "-----" :: rest) (.capture f) m acc
      = parseStep rest .normal (f.set m (f.get m ++ joinNL ls)) acc
  | [], f, rest, m, acc, _ => by
    rw [List.nil_append]
    rw [show parseStep ("-----" :: rest) (.capture f) m acc
        = parseStep rest .normal m acc from rfl]
    rw [show joinNL [] = "" from rfl, String.append_empty, MField.set_get]
  | l :: ls, f, rest, m, acc, h => by
    have hp := not_or.mp (by simpa [List.mem_cons] using h)
    have ih := capture_content ls f rest (f.add m l) acc hp.2
    have step1 : parseStep ((l :: ls) ++ "-----" :: rest) (.capture f) m acc
        = parseStep (ls ++ "-----" :: rest) (.capture f) (f.add m l) acc := by
      simp only [List.cons_append, parseStep]
      rw [if_neg (fun e => hp.1 e.symm)]
      rfl
    rw [step1, ih, MField.add, MField.get_set, MField.set_set]
    have hj : (f.get m ++ l ++ "\n") ++ joinNL ls = f.get m ++ joinNL (l :: ls) := by
      simp [joinNL, String.append_assoc]
    rw [hj]

/-- A capture loop that never sees `-----` consumes the rest of the
input and the whole parse ends without error, returning the entries
sealed so far. -/
theorem capture_end : ∀ (ls : List String) (f : MField) (m : Entry)
    (acc : List Entry), "-----" ∉ ls →
    parseStep ls (.capture f) m acc = .ok acc
  | [], _, _, _, _ => rfl
  | l :: ls, f, m, acc, h => by
    have hp := not_or.mp (by simpa [List.mem_cons] using h)
    simp only [parseStep]
    rw [if_neg (fun e => hp.1 e.symm)]
    exact capture_end ls f (f.add m l) acc hp.2

/-! ## Structural lemmas about the scanner loop -/

/-- Case analysis for a line with at least two `": "` segments: the
parser either fails, or continues with an entry that differs from `m`
only in single-line fields; the two `ALLOW` fields are untouched unless
the key is the corresponding one. -/
theorem normal_kv_cases (l : String) (m : Entry) (acc : List Entry)
    (rest : List String) (h1 : ¬ (splitCS l).length ≤ 1) :
    (∃ e, parseStep (l :: rest) .normal m acc = .error e) ∨
    (∃ m', parseStep (l :: rest) .normal m acc = parseStep rest .normal m' acc
      ∧ m'.body = m.body ∧ m'.extendedBody = m.extendedBody
      ∧ m'.excerpt = m.excerpt ∧ m'.keywords = m.keywords
      ∧ m'.comment = m.comment
      ∧ ((splitCS l).getD 0 "" ≠ "ALLOW COMMENTS" →
          m'.allowComments = m.allowComments)
      ∧ ((splitCS l).getD 0 "" ≠ "ALLOW PINGS" →
          m'.allowPings = m.allowPings)) := by
  simp only [parseStep]
  rw [if_neg h1]
  by_cases hc : (splitCS l).getD 1 "" = "COMMENT:"
  · rw [if_pos hc]
    exact Or.inr ⟨m, rfl, rfl, rfl, rfl, rfl, rfl, fun _ => rfl, fun _ => rfl⟩
  rw [if_neg hc]
  by_cases hk : (splitCS l).getD 0 "" = "AUTHOR"
  · rw [if_pos hk]
    exact Or.inr ⟨_, rfl, rfl, rfl, rfl, rfl, rfl, fun _ => rfl, fun _ => rfl⟩
  rw [if_neg hk]
  by_cases hk2 : (splitCS l).getD 0 "" = "TITLE"
  · rw [if_pos hk2]
    exact Or.inr ⟨_, rfl, rfl, rfl, rfl, rfl, rfl, fun _ => rfl, fun _ => rfl⟩
  rw [if_neg hk2]
  by_cases hk3 : (splitCS l).getD 0 "" = "BASENAME"
  · rw [if_pos hk3]
    exact Or.inr ⟨_, rfl, rfl, rfl, rfl, rfl, rfl, fun _ => rfl, fun _ => rfl⟩
  rw [if_neg hk3]
  by_cases hk4 : (splitCS l).getD 0 "" = "STATUS"
  · rw [if_pos hk4]
    by_cases hst : (splitCS l).getD 1 "" = "Draft"
        ∨ (splitCS l).getD 1 "" = "Publish" ∨ (splitCS l).getD 1 "" = "Future"
    · rw [if_pos hst]
      exact Or.inr ⟨_, rfl, rfl, rfl, rfl, rfl, rfl, fun _ => rfl, fun _ => rfl⟩
    · rw [if_neg hst]
      exact Or.inl ⟨_, rfl⟩
  rw [if_neg hk4]
  by_cases hk5 : (splitCS l).getD 0 "" = "ALLOW COMMENTS"
  · rw [if_pos hk5]
    rcases hA : atoi ((splitCS l).getD 1 "") with _ | n
    · simp only [hA]
      exact Or.inl ⟨_, rfl⟩
    · simp only [hA]
      by_cases hr : n ≠ 0 ∧ n ≠ 1
      · rw [if_pos hr]
        exact Or.inl ⟨_, rfl⟩
      · rw [if_neg hr]
        refine Or.inr ⟨_, rfl, rfl, rfl, rfl, rfl, rfl, fun hne => ?_, fun _ => rfl⟩
        exact absurd hk5 hne
  rw [if_neg hk5]
  by_cases hk6 : (splitCS l).getD 0 "" = "ALLOW PINGS"
  · rw [if_pos hk6]
    rcases hA : atoi ((splitCS l).getD 1 "") with _ | n
    · simp only [hA]
      exact Or.inl ⟨_, rfl⟩
    · simp only [hA]
      by_cases hr : m.allowComments ≠ 0 ∧ m.allowComments ≠ 1
      · rw [if_pos hr]
        exact Or.inl ⟨_, rfl⟩
      · rw [if_neg hr]
        refine Or.inr ⟨_, rfl, rfl, rfl, rfl, rfl, rfl, fun _ => rfl, fun hne => ?_⟩
        exact absurd hk6 hne
  rw [if_neg hk6]
  by_cases hk7 : (splitCS l).getD 0 "" = "CONVERT BREAKS"
  · rw [if_pos hk7]
    exact Or.inr ⟨_, rfl, rfl, rfl, rfl, rfl, rfl, fun _ => rfl, fun _ => rfl⟩
  rw [if_neg hk7]
  by_cases hk8 : (splitCS l).getD 0 "" = "DATE"
  · rw [if_pos hk8]
    rcases hA : dateParse ((splitCS l).getD 1 "") with _ | t
    · simp only [hA]
      exact Or.inl ⟨_, rfl⟩
    · simp only [hA]
      exact Or.inr ⟨_, rfl, rfl, rfl, rfl, rfl, rfl, fun _ => rfl, fun _ => rfl⟩
  rw [if_neg hk8]
  by_cases hk9 : (splitCS l).getD 0 "" = "PRIMARY CATEGORY"
  · rw [if_pos hk9]
    exact Or.inr ⟨_, rfl, rfl, rfl, rfl, rfl, rfl, fun _ => rfl, fun _ => rfl⟩
  rw [if_neg hk9]
  by_cases hk10 : (splitCS l).getD 0 "" = "CATEGORY"
  · rw [if_pos hk10]
    exact Or.inr ⟨_, rfl, rfl, rfl, rfl, rfl, rfl, fun _ => rfl, fun _ => rfl⟩
  rw [if_neg hk10]
  by_cases hk11 : (splitCS l).getD 0 "" = "IMAGE"
  · rw [if_pos hk11]
    exact Or.inr ⟨_, rfl, rfl, rfl, rfl, rfl, rfl, fun _ => rfl, fun _ => rfl⟩
  rw [if_neg hk11]
  exact Or.inr ⟨m, rfl, rfl, rfl, rfl, rfl, rfl, fun _ => rfl, fun _ => rfl⟩

theorem parseStep_count (ls : List String) : ∀ (mode : Mode) (m : Entry)
    (acc : List Entry) (es : List Entry), parseStep ls mode m acc = .ok es →
    es.length = acc.length + countTerm ls mode.isCap := by
  induction ls with
  | nil =>
    intro mode m acc es h
    have hae : acc = es := by
      simpa [parseStep] using h
    subst hae
    simp [countTerm]
  | cons l ls ih =>
    intro mode m acc es h
    cases mode with
    | capture f =>
      simp only [parseStep] at h
      by_cases hl : l = "-----"
      · rw [if_pos hl] at h
        simpa [countTerm, Mode.isCap, hl] using ih .normal m acc es h
      · rw [if_neg hl] at h
        simpa [countTerm, Mode.isCap, hl] using ih (.capture f) (f.add m l) acc es h
    | normal =>
      simp only [countTerm, Mode.isCap]
      by_cases h1 : (splitCS l).length ≤ 1
      · rw [if_pos h1]
        simp only [parseStep] at h
        rw [if_pos h1] at h
        by_cases hv1 : (splitCS l).getD 0 "" = "--------"
        · rw [if_pos hv1] at h
          rw [if_pos hv1]
          have := ih .normal NewEntry (acc ++ [m]) es h
          simp only [Mode.isCap, List.length_append, List.length_cons,
            List.length_nil] at this
          omega
        · rw [if_neg hv1] at h
          rw [if_neg hv1]
          by_cases hv2 : (splitCS l).getD 0 "" = "-----"
          · rw [if_pos hv2] at h
            rw [if_pos hv2]
            exact ih .normal m acc es h
          · rw [if_neg hv2] at h
            rw [if_neg hv2]
            by_cases hb1 : (splitCS l).getD 0 "" = "BODY:"
            · rw [if_pos hb1] at h
              rw [if_pos (Or.inl hb1)]
              exact ih (.capture .body) m acc es h
            · rw [if_neg hb1] at h
              by_cases hb2 : (splitCS l).getD 0 "" = "EXTENDED BODY:"
              · rw [if_pos hb2] at h
                rw [if_pos (Or.inr (Or.inl hb2))]
                exact ih (.capture .extendedBody) m acc es h
              · rw [if_neg hb2] at h
                by_cases hb3 : (splitCS l).getD 0 "" = "EXCERPT:"
                · rw [if_pos hb3] at h
                  rw [if_pos (Or.inr (Or.inr (Or.inl hb3)))]
                  exact ih (.capture .excerpt) m acc es h
                · rw [if_neg hb3] at h
                  by_cases hb4 : (splitCS l).getD 0 "" = "KEYWORDS:"
                  · rw [if_pos hb4] at h
                    rw [if_pos (Or.inr (Or.inr (Or.inr (Or.inl hb4))))]
                    exact ih (.capture .keywords) m acc es h
                  · rw [if_neg hb4] at h
                    by_cases hb5 : (splitCS l).getD 0 "" = "COMMENT:"
                    · rw [if_pos hb5] at h
                      rw [if_pos (Or.inr (Or.inr (Or.inr (Or.inr hb5))))]
                      exact ih (.capture .comment) m acc es h
                    · rw [if_neg hb5] at h
                      rw [if_neg (by
                        intro hc
                        rcases hc with hc | hc | hc | hc | hc
                        · exact hb1 hc
                        · exact hb2 hc
                        · exact hb3 hc
                        · exact hb4 hc
                        · exact hb5 hc)]
                      exact ih .normal m acc es h
      · rw [if_neg h1]
        rcases normal_kv_cases l m acc ls h1 with ⟨e, he⟩ | ⟨m', hm', _⟩
        · rw [he] at h
          cases h
        · rw [hm'] at h
          exact ih .normal m' acc es h

/-- A line that `": "`-splits into at most one segment either seals the
record, enters a capture loop, or is skipped. -/
theorem normal_sep_cases (l : String) (m : Entry) (acc : List Entry)
    (rest : List String) (h1 : (splitCS l).length ≤ 1) :
    ((splitCS l).getD 0 "" = "--------" ∧
      parseStep (l :: rest) .normal m acc
        = parseStep rest .normal NewEntry (acc ++ [m])) ∨
    (∃ f : MField, parseStep (l :: rest) .normal m acc
        = parseStep rest (.capture f) m acc) ∨
    parseStep (l :: rest) .normal m acc = parseStep rest .normal m acc := by
  simp only [parseStep]
  rw [if_pos h1]
  by_cases hv1 : (splitCS l).getD 0 "" = "--------"
  · rw [if_pos hv1]
    exact Or.inl ⟨hv1, rfl⟩
  rw [if_neg hv1]
  by_cases hv2 : (splitCS l).getD 0 "" = "-----"
  · rw [if_pos hv2]
    exact Or.inr (Or.inr rfl)
  rw [if_neg hv2]
  by_cases hb1 : (splitCS l).getD 0 "" = "BODY:"
  · rw [if_pos hb1]
    exact Or.inr (Or.inl ⟨.body, rfl⟩)
  rw [if_neg hb1]
  by_cases hb2 : (splitCS l).getD 0 "" = "EXTENDED BODY:"
  · rw [if_pos hb2]
    exact Or.inr (Or.inl ⟨.extendedBody, rfl⟩)
  rw [if_neg hb2]
  by_cases hb3 : (splitCS l).getD 0 "" = "EXCERPT:"
  · rw [if_pos hb3]
    exact Or.inr (Or.inl ⟨.excerpt, rfl⟩)
  rw [if_neg hb3]
  by_cases hb4 : (splitCS l).getD 0 "" = "KEYWORDS:"
  · rw [if_pos hb4]
    exact Or.inr (Or.inl ⟨.keywords, rfl⟩)
  rw [if_neg hb4]
  by_cases hb5 : (splitCS l).getD 0 "" = "COMMENT:"
  · rw [if_pos hb5]
    exact Or.inr (Or.inl ⟨.comment, rfl⟩)
  rw [if_neg hb5]
  exact Or.inr (Or.inr rfl)

/-- A line whose key (first `": "` segment) is `ALLOW COMMENTS` or
`ALLOW PINGS`. -/
def isAllowLine (l : String) : Bool :=
  ((splitCS l).getD 0 "" == "ALLOW COMMENTS")
    || ((splitCS l).getD 0 "" == "ALLOW PINGS")

theorem parseStep_allow (ls : List String) : ∀ (mode : Mode) (m : Entry)
    (acc es : List Entry), (∀ l ∈ ls, isAllowLine l = false) →
    m.allowComments = -1 → m.allowPings = -1 →
    (∀ e ∈ acc, e.allowComments = -1 ∧ e.allowPings = -1) →
    parseStep ls mode m acc = .ok es →
    ∀ e ∈ es, e.allowComments = -1 ∧ e.allowPings = -1 := by
  induction ls with
  | nil =>
    intro mode m acc es _ _ _ hacc h
    have hae : acc = es := by
      simpa [parseStep] using h
    subst hae
    exact hacc
  | cons l ls ih =>
    intro mode m acc es hls hac hap hacc h
    have hl0 := hls l (List.mem_cons_self l ls)
    have hls' : ∀ l' ∈ ls, isAllowLine l' = false :=
      fun l' h' => hls l' (List.mem_cons_of_mem _ h')
    cases mode with
    | capture f =>
      simp only [parseStep] at h
      by_cases hl : l = "-----"
      · rw [if_pos hl] at h
        exact ih .normal m acc es hls' hac hap hacc h
      · rw [if_neg hl] at h
        refine ih (.capture f) (f.add m l) acc es hls' ?_ ?_ hacc h
        · rw [MField.add, MField.set_allowComments]
          exact hac
        · rw [MField.add, MField.set_allowPings]
          exact hap
    | normal =>
      by_cases h1 : (splitCS l).length ≤ 1
      · rcases normal_sep_cases l m acc ls h1 with ⟨_, hstep⟩ | ⟨f, hstep⟩ | hstep
        · rw [hstep] at h
          refine ih .normal NewEntry (acc ++ [m]) es hls' rfl rfl ?_ h
          intro e he
          rcases List.mem_append.mp he with h' | h'
          · exact hacc e h'
          · have : e = m := by simpa using h'
            subst this
            exact ⟨hac, hap⟩
        · rw [hstep] at h
          exact ih (.capture f) m acc es hls' hac hap hacc h
        · rw [hstep] at h
          exact ih .normal m acc es hls' hac hap hacc h
      · have hne : (splitCS l).getD 0 "" ≠ "ALLOW COMMENTS"
            ∧ (splitCS l).getD 0 "" ≠ "ALLOW PINGS" := by
          rw [isAllowLine, Bool.or_eq_false_iff, beq_eq_false_iff_ne,
            beq_eq_false_iff_ne] at hl0
          exact hl0
        rcases normal_kv_cases l m acc ls h1 with ⟨e, he⟩ |
          ⟨m', hm', _, _, _, _, _, hAC, hAP⟩
        · rw [he] at h
          cases h
        · rw [hm'] at h
          refine ih .normal m' acc es hls' ?_ ?_ hacc h
          · rw [hAC hne.1]
            exact hac
          · rw [hAP hne.2]
            exact hap

theorem parseStep_minv (ls : List String) : ∀ (mode : Mode) (m : Entry)
    (acc es : List Entry), MInv m → (∀ e ∈ acc, MInv e) →
    parseStep ls mode m acc = .ok es → ∀ e ∈ es, MInv e := by
  induction ls with
  | nil =>
    intro mode m acc es _ hacc h
    have hae : acc = es := by
      simpa [parseStep] using h
    subst hae
    exact hacc
  | cons l ls ih =>
    intro mode m acc es hm hacc h
    cases mode with
    | capture f =>
      simp only [parseStep] at h
      by_cases hl : l = "-----"
      · rw [if_pos hl] at h
        exact ih .normal m acc es hm hacc h
      · rw [if_neg hl] at h
        exact ih (.capture f) (f.add m l) acc es (MInv_add f m l hm) hacc h
    | normal =>
      by_cases h1 : (splitCS l).length ≤ 1
      · rcases normal_sep_cases l m acc ls h1 with ⟨_, hstep⟩ | ⟨f, hstep⟩ | hstep
        · rw [hstep] at h
          refine ih .normal NewEntry (acc ++ [m]) es MInv_new ?_ h
          intro e he
          rcases List.mem_append.mp he with h' | h'
          · exact hacc e h'
          · have : e = m := by simpa using h'
            subst this
            exact hm
        · rw [hstep] at h
          exact ih (.capture f) m acc es hm hacc h
        · rw [hstep] at h
          exact ih .normal m acc es hm hacc h
      · rcases normal_kv_cases l m acc ls h1 with ⟨e, he⟩ |
          ⟨m', hm', hb, hx1, hx2, hx3, hx4, _, _⟩
        · rw [he] at h
          cases h
        · rw [hm'] at h
          exact ih .normal m' acc es (MInv_nonml m m' hb hx1 hx2 hx3 hx4 hm) hacc h

/-! ## The claims -/

/-- The header line of each multi-line field sends the scanner into the
corresponding capture loop. -/
theorem header_step (f : MField) (rest : List String) (m : Entry)
    (acc : List Entry) :
    parseStep (f.header :: rest) .normal m acc
      = parseStep rest (.capture f) m acc := by
  cases f <;> rfl

/-- C1.  Contrary to the claim, src/parse.go line 190 range-checks
`AllowComments` instead of `AllowPings`: once `AllowComments` is 0 or 1,
an out-of-range `ALLOW PINGS` integer is accepted and stored, so `Parse`
returns an entry whose `AllowPings` is 5.  The abort only happens while
`AllowComments` is outside {0, 1} (second conjunct). -/
theorem claim1_divergence :
    Parse ["ALLOW COMMENTS: 1", "ALLOW PINGS: 5", "--------"]
      = .ok [{ NewEntry with allowComments := 1, allowPings := 5 }]
  ∧ Parse ["ALLOW PINGS: 5"] = .error (.allowPingsRange 5) := by
  exact ⟨by decide, by decide⟩

/-- C2 counterexample.  `strings.Split` cuts on every `": "`, so
`TITLE: a: b` assigns `"a"` (not `"a: b"`), and a line whose value
segment is exactly `COMMENT:` is skipped and assigns nothing. -/
theorem claim2_counterexample :
    Parse ["TITLE: a: b", "--------"] = .ok [{ NewEntry with title := "a" }]
  ∧ ("a" : String) ≠ "a: b"
  ∧ Parse ["TITLE: COMMENT:", "--------"] = .ok [NewEntry]
  ∧ NewEntry.title = "" := by
  exact ⟨by decide, by decide, by decide, rfl⟩

/-- C2 amended.  For a value free of `": "` and different from
`COMMENT:`, a `KEY: value` line with key AUTHOR, TITLE, BASENAME,
CONVERT BREAKS, PRIMARY CATEGORY or IMAGE assigns the full value to the
corresponding field, overwriting any previous value of the entry under
construction. -/
theorem claim2_amended (v : String) (rest : List String) (m : Entry)
    (acc : List Entry) (hv : hasCS v.data = false) (hvc : v ≠ "COMMENT:") :
    parseStep (("AUTHOR: " ++ v) :: rest) .normal m acc
      = parseStep rest .normal { m with author := v } acc
  ∧ parseStep (("TITLE: " ++ v) :: rest) .normal m acc
      = parseStep rest .normal { m with title := v } acc
  ∧ parseStep (("BASENAME: " ++ v) :: rest) .normal m acc
      = parseStep rest .normal { m with basename := v } acc
  ∧ parseStep (("CONVERT BREAKS: " ++ v) :: rest) .normal m acc
      = parseStep rest .normal { m with convertBreaks := v } acc
  ∧ parseStep (("PRIMARY CATEGORY: " ++ v) :: rest) .normal m acc
      = parseStep rest .normal { m with primaryCategory := v } acc
  ∧ parseStep (("IMAGE: " ++ v) :: rest) .normal m acc
      = parseStep rest .normal { m with image := v } acc := by
  refine ⟨?_, ?_, ?_, ?_, ?_, ?_⟩
  · have hs : splitCS ("AUTHOR: " ++ v) = ["AUTHOR", v] := by
      rw [show ("AUTHOR: " : String) = "AUTHOR" ++ ": " from by decide]
      exact splitCS_kv "AUTHOR" v (by decide) hv
    simp only [parseStep, hs]
    simp [hvc]
  · have hs : splitCS ("TITLE: " ++ v) = ["TITLE", v] := by
      rw [show ("TITLE: " : String) = "TITLE" ++ ": " from by decide]
      exact splitCS_kv "TITLE" v (by decide) hv
    simp only [parseStep, hs]
    simp [hvc]
  · have hs : splitCS ("BASENAME: " ++ v) = ["BASENAME", v] := by
      rw [show ("BASENAME: " : String) = "BASENAME" ++ ": " from by decide]
      exact splitCS_kv "BASENAME" v (by decide) hv
    simp only [parseStep, hs]
    simp [hvc]
  · have hs : splitCS ("CONVERT BREAKS: " ++ v) = ["CONVERT BREAKS", v] := by
      rw [show ("CONVERT BREAKS: " : String) = "CONVERT BREAKS" ++ ": " from by decide]
      exact splitCS_kv "CONVERT BREAKS" v (by decide) hv
    simp only [parseStep, hs]
    simp [hvc]
  · have hs : splitCS ("PRIMARY CATEGORY: " ++ v) = ["PRIMARY CATEGORY", v] := by
      rw [show ("PRIMARY CATEGORY: " : String) = "PRIMARY CATEGORY" ++ ": " from by decide]
      exact splitCS_kv "PRIMARY CATEGORY" v (by decide) hv
    simp only [parseStep, hs]
    simp [hvc]
  · have hs : splitCS ("IMAGE: " ++ v) = ["IMAGE", v] := by
      rw [show ("IMAGE: " : String) = "IMAGE" ++ ": " from by decide]
      exact splitCS_kv "IMAGE" v (by decide) hv
    simp only [parseStep, hs]
    simp [hvc]

theorem claim2_witness :
    parseStep (("AUTHOR: " ++ "x") :: []) .normal NewEntry []
      = parseStep [] .normal { NewEntry with author := "x" } [] :=
  (claim2_amended "x" [] NewEntry [] (by decide) (by decide)).1

/-- C3.  `Parse` never calls `scanner.Err()`, so a stream error pending
after the delivered lines is silently dropped: the sealed entries are
returned with a nil error instead of the stream error. -/
theorem claim3_divergence :
    ParseStream ["AUTHOR: a", "--------"] (some "io read failure")
      = .ok [{ NewEntry with author := "a" }] := by
  decide

/-- C4.  The DATE value is parsed with the 12-hour layout exactly when
it ends in `AM` or `PM` and with the 24-hour layout otherwise; the PM
form and the 24-hour form of the same moment give the same calendar
instant 2017-04-22 20:41:58, and an ISO-style value is a fatal error
wrapping the layout mismatch. -/
theorem claim4_date :
    (∀ v : String, dateParse v
      = if hasSuffix v "AM" || hasSuffix v "PM" then parse12 v else parse24 v)
  ∧ dateParse "04/22/2017 08:41:58 PM" = some ⟨2017, 4, 22, 20, 41, 58⟩
  ∧ dateParse "04/22/2017 20:41:58" = some ⟨2017, 4, 22, 20, 41, 58⟩
  ∧ Parse ["DATE: 04/22/2017 08:41:58 PM", "--------"]
      = Parse ["DATE: 04/22/2017 20:41:58", "--------"]
  ∧ Parse ["DATE: 2023-01-02 15:30:45"]
      = .error (.dateInvalid "2023-01-02 15:30:45") := by
  exact ⟨fun v => rfl, by decide, by decide, by decide, by decide⟩

/-- C5 counterexample.  `COMMENT:` is outside {Draft, Publish, Future},
yet `STATUS: COMMENT:` does not abort: the `value != "COMMENT:"` guard
skips the whole switch, the record is sealed and returned. -/
theorem claim5_counterexample :
    ¬ (("COMMENT:" : String) = "Draft" ∨ ("COMMENT:" : String) = "Publish"
        ∨ ("COMMENT:" : String) = "Future")
  ∧ Parse ["STATUS: COMMENT:", "--------"] = .ok [NewEntry] := by
  exact ⟨by decide, by decide⟩

/-- C5 amended.  For a status value free of `": "` and different from
`COMMENT:`: a value outside the closed set aborts the parse right away
with a `statusInvalid` error whose message contains the value (and an
`Except.error` result carries no entries); a value in the set is
assigned to the status field. -/
theorem claim5_amended (v : String) (rest : List String) (m : Entry)
    (acc : List Entry) (hv : hasCS v.data = false) (hvc : v ≠ "COMMENT:") :
    (¬ (v = "Draft" ∨ v = "Publish" ∨ v = "Future") →
      parseStep (("STATUS: " ++ v) :: rest) .normal m acc
        = .error (.statusInvalid v)
      ∧ strContains ((ParseError.statusInvalid v).message) v = true)
  ∧ ((v = "Draft" ∨ v = "Publish" ∨ v = "Future") →
      parseStep (("STATUS: " ++ v) :: rest) .normal m acc
        = parseStep rest .normal { m with status := v } acc) := by
  have hs : splitCS ("STATUS: " ++ v) = ["STATUS", v] := by
    rw [show ("STATUS: " : String) = "STATUS" ++ ": " from by decide]
    exact splitCS_kv "STATUS" v (by decide) hv
  constructor
  · intro hnv
    constructor
    · simp only [parseStep, hs]
      simp [hvc]
      intro hd
      exact absurd hd hnv
    · rw [strContains, ParseError.message, String.data_append]
      exact isInfL_append_self _ _
  · intro hyv
    simp only [parseStep, hs]
    simp [hvc]
    intro h1 h2 h3
    rcases hyv with hd | hd | hd
    · exact absurd hd h1
    · exact absurd hd h2
    · exact absurd hd h3

theorem claim5_witness :
    parseStep (("STATUS: " ++ "Nope") :: []) .normal NewEntry []
        = .error (.statusInvalid "Nope")
  ∧ strContains ((ParseError.statusInvalid "Nope").message) "Nope" = true :=
  (claim5_amended "Nope" [] NewEntry [] (by decide) (by decide)).1 (by decide)

/-- C6.  A successful parse returns exactly one entry per record
terminator encountered outside capture blocks; the empty input gives no
entries; an unterminated trailing record is silently dropped; entries
come out in terminator order. -/
theorem claim6_records :
    (∀ (ls : List String) (es : List Entry), Parse ls = .ok es →
      es.length = countTerm ls false)
  ∧ Parse [] = .ok []
  ∧ Parse ["TITLE: dangling"] = .ok []
  ∧ Parse ["TITLE: a", "--------", "TITLE: b", "--------"]
      = .ok [{ NewEntry with title := "a" }, { NewEntry with title := "b" }] := by
  refine ⟨?_, by decide, by decide, by decide⟩
  intro ls es h
  simpa [Mode.isCap] using parseStep_count ls .normal NewEntry [] es h

theorem claim6_witness :
    ([NewEntry] : List Entry).length = countTerm ["--------"] false :=
  claim6_records.1 ["--------"] [NewEntry] (by decide)

/-- C7.  Capture mode appends every line verbatim plus a newline until a
line equal to `-----`; `KEY: value`-shaped lines inside the block are
opaque (the equation holds for every block content, and the concrete
instance shows `STATUS: Bogus` captured, not validated); end of stream
during capture keeps the accumulated text on the in-progress entry and
ends without error; and every populated multi-line field of a returned
entry ends in a newline. -/
theorem claim7_capture :
    (∀ (f : MField) (ls rest : List String) (m : Entry) (acc : List Entry),
      "-----" ∉ ls →
      parseStep (f.header :: (ls ++ "-----" :: rest)) .normal m acc
        = parseStep rest .normal (f.set m (f.get m ++ joinNL ls)) acc)
  ∧ (∀ (f : MField) (ls : List String) (m : Entry) (acc : List Entry),
      "-----" ∉ ls →
      parseStep (f.header :: ls) .normal m acc = .ok acc)
  ∧ (∀ (lines : List String) (es : List Entry), Parse lines = .ok es →
      ∀ e ∈ es, ∀ f : MField, f.get e ≠ "" → hasSuffix (f.get e) "\n" = true)
  ∧ Parse ["COMMENT:", "STATUS: Bogus", "-----", "--------"]
      = .ok [{ NewEntry with comment := "STATUS: Bogus\n" }]
  ∧ NewEntry.status = "" := by
  refine ⟨?_, ?_, ?_, by decide, rfl⟩
  · intro f ls rest m acc h
    rw [header_step, capture_content ls f rest m acc h]
  · intro f ls m acc h
    rw [header_step]
    exact capture_end ls f m acc h
  · intro lines es h e he f hne
    rcases parseStep_minv lines .normal NewEntry [] es MInv_new
      (by intro e' he'; cases he') h e he f with h0 | h1
    · exact absurd h0 hne
    · exact h1

theorem claim7_witness :
    parseStep (MField.body.header :: (["x"] ++ "-----" :: ["--------"]))
        .normal NewEntry []
      = parseStep ["--------"] .normal
          (MField.body.set NewEntry (MField.body.get NewEntry ++ joinNL ["x"])) [] :=
  claim7_capture.1 MField.body ["x"] ["--------"] NewEntry [] (by decide)

/-- C8 counterexample.  A `CATEGORY:` line whose value is exactly
`COMMENT:` appends nothing (the guard skips the switch), so the category
list does not equal the list of CATEGORY values of the record. -/
theorem claim8_counterexample :
    Parse ["CATEGORY: COMMENT:", "--------"] = .ok [NewEntry]
  ∧ NewEntry.category ≠ ["COMMENT:"] := by
  exact ⟨by decide, by decide⟩

/-- C8 amended.  For values free of `": "` and different from
`COMMENT:`, each CATEGORY line appends its value to the end of the
category list (never overwriting), so the list keeps appearance order
with duplicates preserved and no sorting or deduplication. -/
theorem claim8_amended (v : String) (rest : List String) (m : Entry)
    (acc : List Entry) (hv : hasCS v.data = false) (hvc : v ≠ "COMMENT:") :
    parseStep (("CATEGORY: " ++ v) :: rest) .normal m acc
      = parseStep rest .normal { m with category := m.category ++ [v] } acc
  ∧ Parse ["CATEGORY: X", "CATEGORY: Y", "CATEGORY: X", "--------"]
      = .ok [{ NewEntry with category := ["X", "Y", "X"] }] := by
  constructor
  · have hs : splitCS ("CATEGORY: " ++ v) = ["CATEGORY", v] := by
      rw [show ("CATEGORY: " : String) = "CATEGORY" ++ ": " from by decide]
      exact splitCS_kv "CATEGORY" v (by decide) hv
    simp only [parseStep, hs]
    simp [hvc]
  · decide

theorem claim8_witness :
    parseStep (("CATEGORY: " ++ "X") :: []) .normal NewEntry []
      = parseStep [] .normal { NewEntry with category := NewEntry.category ++ ["X"] } [] :=
  (claim8_amended "X" [] NewEntry [] (by decide) (by decide)).1

/-- C9.  `NewEntry` is all Go zero values except the two `-1`
sentinels; every record terminator seals the current entry and restarts
from `NewEntry`; a record that sets the allow fields does not leak them
into the next record; and a parse whose input has no `ALLOW COMMENTS` or
`ALLOW PINGS` line returns only entries with both fields `-1`. -/
theorem claim9_defaults :
    NewEntry = { author := "", title := "", basename := "", status := "", allowComments := -1, allowPings := -1, convertBreaks := "", date := ⟨1, 1, 1, 0, 0, 0⟩, primaryCategory := "", category := [], image := "", body := "", extendedBody := "", excerpt := "", keywords := "", comment := "" }
  ∧ (∀ (rest : List String) (m : Entry) (acc : List Entry),
      parseStep ("--------" :: rest) .normal m acc
        = parseStep rest .normal NewEntry (acc ++ [m]))
  ∧ Parse ["ALLOW COMMENTS: 0", "ALLOW PINGS: 1", "--------", "--------"]
      = .ok [{ NewEntry with allowComments := 0, allowPings := 1 }, NewEntry]
  ∧ (∀ (ls : List String) (es : List Entry), Parse ls = .ok es →
      (∀ l ∈ ls, isAllowLine l = false) →
      ∀ e ∈ es, e.allowComments = -1 ∧ e.allowPings = -1) := by
  refine ⟨rfl, fun rest m acc => rfl, by decide, ?_⟩
  intro ls es h hno e he
  exact parseStep_allow ls .normal NewEntry [] es hno rfl rfl
    (by intro e' he'; cases he') h e he

theorem claim9_witness :
    NewEntry.allowComments = -1 ∧ NewEntry.allowPings = -1 :=
  claim9_defaults.2.2.2 ["--------"] [NewEntry] (by decide) (by decide)
    NewEntry (by decide)

/-- C10.  When the same multi-line header occurs twice in one record,
the second block's content is concatenated after the first block's
content (the field accumulates with `+=`). -/
theorem claim10_accumulate (f : MField) (ls ls2 rest : List String)
    (m : Entry) (acc : List Entry) (h : "-----" ∉ ls) (h2 : "-----" ∉ ls2) :
    parseStep
        (f.header :: (ls ++ "-----" :: (f.header :: (ls2 ++ "-----" :: rest))))
        .normal m acc
      = parseStep rest .normal
          (f.set m ((f.get m ++ joinNL ls) ++ joinNL ls2)) acc
  ∧ Parse ["BODY:", "a", "-----", "BODY:", "b", "-----", "--------"]
      = .ok [{ NewEntry with body := "a\nb\n" }] := by
  constructor
  · rw [header_step, capture_content ls f _ m acc h, header_step,
      capture_content ls2 f rest _ acc h2, MField.get_set, MField.set_set]
  · decide

theorem claim10_witness :
    parseStep
        (MField.body.header
          :: (["a"] ++ "-----" :: (MField.body.header :: (["b"] ++ "-----" :: ["--------"]))))
        .normal NewEntry []
      = parseStep ["--------"] .normal
          (MField.body.set NewEntry
            ((MField.body.get NewEntry ++ joinNL ["a"]) ++ joinNL ["b"])) [] :=
  (claim10_accumulate MField.body ["a"] ["b"] ["--------"] NewEntry []
    (by decide) (by decide)).1

end Movabletype
